import Mathlib

/-!
Verification development for the listings-retriever normalization /
dedup / scoring pipeline.  Python sources are shallowly embedded:
strings are `List Char` / `String`, Python `float` is `ℚ`, `None` is
`Option.none`, raised `DropItem` exceptions are `Except.error`, and the
external SQL store is an explicit record of lists.
-/

/-- Python `\s` on the ASCII range: the whitespace class used by
`str.strip()` and the `re` substitutions in the cleaning pipeline. -/
def isSpace (c : Char) : Bool :=
  c == ' ' || c == '\t' || c == '\n' || c == '\r' || c == '\x0b' || c == '\x0c'

/-- The punctuation class `[,.!?;:]` of `_clean_text`'s second substitution. -/
def isPunct (c : Char) : Bool :=
  c == ',' || c == '.' || c == '!' || c == '?' || c == ';' || c == ':'

/-- The character class `[a-zA-Z0-9#]` of `clean_text`'s HTML-entity pattern. -/
def isEntityChar (c : Char) : Bool :=
  ('a' ≤ c && c ≤ 'z') || ('A' ≤ c && c ≤ 'Z') || ('0' ≤ c && c ≤ '9') || c == '#'

/-- ASCII digits, the `\d` class of the numeric extraction patterns. -/
def isDigit (c : Char) : Bool := '0' ≤ c && c ≤ '9'

/-- ASCII alphanumerics, used by the slug model. -/
def isAlnum (c : Char) : Bool :=
  ('a' ≤ c && c ≤ 'z') || ('A' ≤ c && c ≤ 'Z') || ('0' ≤ c && c ≤ '9')

/-- Drop a trailing run of characters satisfying `p` (the right half of
Python `str.strip()`). -/
def dropTrail (p : Char → Bool) : List Char → List Char
  | [] => []
  | c :: rest =>
    match dropTrail p rest with
    | [] => if p c then [] else [c]
    | r => c :: r

/-- Python `str.strip()` restricted to the source's whitespace class:
drop leading and trailing whitespace. -/
def stripL (l : List Char) : List Char :=
  dropTrail isSpace (l.dropWhile isSpace)

/-- Replace every maximal run of characters satisfying `p` by the single
character `r`; the boolean records whether the previous character was part
of such a run.  With `p := isSpace`, `r := ' '` this is
`re.sub(r'\s+', ' ', ·)`. -/
def runsAux (p : Char → Bool) (r : Char) : Bool → List Char → List Char
  | _, [] => []
  | prev, c :: rest =>
    if p c then
      if prev then runsAux p r true rest
      else r :: runsAux p r true rest
    else c :: runsAux p r false rest

/-- Model of `re.sub(r'\s+', ' ', l)`: collapse whitespace runs to single spaces. -/
def collapseWs (l : List Char) : List Char := runsAux isSpace ' ' false l

/-- Model of `re.sub(r'\s+([,.!?;:])', r'\1', ·)`: drop a whitespace run that
immediately precedes a punctuation character.  `pending` holds the
(reversed) whitespace run currently being scanned. -/
def pAux : List Char → List Char → List Char
  | pending, [] => pending.reverse
  | pending, c :: rest =>
    if isSpace c then pAux (c :: pending) rest
    else if isPunct c && !pending.isEmpty then c :: pAux [] rest
    else pending.reverse ++ c :: pAux [] rest

/-- Model of `CleanNormalizePipeline._clean_text` (clean_normalize.py 154-165):
empty input is returned unchanged, otherwise whitespace is stripped and
collapsed and whitespace before punctuation is removed. -/
def pipelineCleanText (s : String) : String :=
  if s.data.isEmpty then "" else
  String.mk (pAux [] (collapseWs (stripL s.data)))

/-- Model of `re.sub(r'&[a-zA-Z0-9#]+;', ' ', ·)`: replace HTML entities by a
space.  The `Option` state holds the (reversed) run of entity characters
collected after an `'&'` still awaiting its `';'`. -/
def reAux : Option (List Char) → List Char → List Char
  | none, [] => []
  | some run, [] => '&' :: run.reverse
  | none, c :: rest =>
    if c == '&' then reAux (some []) rest else c :: reAux none rest
  | some run, c :: rest =>
    if isEntityChar c then reAux (some (c :: run)) rest
    else if c == ';' && !run.isEmpty then ' ' :: reAux none rest
    else if c == '&' then '&' :: run.reverse ++ reAux (some []) rest
    else '&' :: run.reverse ++ c :: reAux none rest

/-- Model of `clean_text` (spiders/utils/html.py 185-196): strip, collapse
whitespace, then replace HTML entities by a space. -/
def htmlCleanText (s : String) : String :=
  if s.data.isEmpty then "" else
  String.mk (reAux none (collapseWs (stripL s.data)))

/-- No leading whitespace character. -/
def NoLead : List Char → Prop
  | [] => True
  | c :: _ => isSpace c = false

/-- No trailing whitespace character. -/
def NoTrail : List Char → Prop
  | [] => True
  | [c] => isSpace c = false
  | _ :: c :: rest => NoTrail (c :: rest)

/-- Every whitespace character is a plain `' '`. -/
def NSpace (l : List Char) : Prop := ∀ c ∈ l, isSpace c = true → c = ' '

/-- No two adjacent whitespace characters. -/
def NAdj : List Char → Prop
  | [] => True
  | [_] => True
  | a :: b :: rest => ¬(isSpace a = true ∧ isSpace b = true) ∧ NAdj (b :: rest)

/-- A whitespace character is never followed by whitespace or punctuation. -/
def SpacedOk : List Char → Prop
  | [] => True
  | [_] => True
  | a :: b :: rest =>
    (isSpace a = true → isSpace b = false ∧ isPunct b = false) ∧ SpacedOk (b :: rest)

/-- List-prefix test (used to implement Python substring containment). -/
def isPre : List Char → List Char → Bool
  | [], _ => true
  | _ :: _, [] => false
  | a :: as, b :: bs => a == b && isPre as bs

/-- Python `pat in text` substring containment. -/
def containsSub (pat : List Char) : List Char → Bool
  | [] => isPre pat []
  | c :: rest => isPre pat (c :: rest) || containsSub pat rest

/-- Fuel-indexed worker for `str.replace(pat, '')`: each step consumes at
least one character, so `l.length` fuel always suffices. -/
def repAux (pat : List Char) : Nat → List Char → List Char
  | _, [] => []
  | 0, l => l
  | n + 1, c :: rest =>
    if isPre pat (c :: rest) then repAux pat n (List.drop (pat.length - 1) rest)
    else c :: repAux pat n rest

/-- Python `str.replace(pat, '')`: delete every non-overlapping, leftmost
occurrence of `pat`. -/
def replaceAllL (pat l : List Char) : List Char :=
  if pat.isEmpty then l else repAux pat l.length l

/-- Python `str.lower()` on the ASCII range. -/
def lowerL (l : List Char) : List Char := l.map Char.toLower

/-- Numeric value of an ASCII digit string. -/
def digitsToNat (l : List Char) : Nat :=
  l.foldl (fun a c => a * 10 + (c.toNat - 48)) 0

/-- Exact value of the decimal literal `intDs[.fracDs]` (Python `float(...)`
is modelled exactly in `ℚ`). -/
def decimalVal (intDs fracDs : List Char) : ℚ :=
  if fracDs.isEmpty then (digitsToNat intDs : ℚ)
  else (digitsToNat intDs : ℚ) + (digitsToNat fracDs : ℚ) / 10 ^ fracDs.length

/-- The optional fractional part `(?:\.\d+)?` following the integer part. -/
def fracDigits : List Char → List Char
  | '.' :: r => r.takeWhile isDigit
  | _ => []

/-- Model of `re.search(r'(\d+(?:\.\d+)?)', ·)`: leftmost plain decimal number, as
used by the size/bedroom/bathroom parsers. -/
def findNumber : List Char → Option ℚ
  | [] => none
  | c :: rest =>
    if isDigit c then
      some (decimalVal (c :: rest.takeWhile isDigit) (fracDigits (rest.dropWhile isDigit)))
    else findNumber rest

/-- The `(?:,\d{3})*` thousands groups of the price pattern: collected group
digits and the remaining text. -/
def groupDigits : List Char → List Char × List Char
  | ',' :: a :: b :: c :: rest =>
    if isDigit a && isDigit b && isDigit c then
      let gr := groupDigits rest
      (a :: b :: c :: gr.1, gr.2)
    else ([], ',' :: a :: b :: c :: rest)
  | l => ([], l)

/-- Model of `re.search(r'(\d+(?:,\d{3})*(?:\.\d+)?)', ·)` with the comma separators
removed (`value_str.replace(',', '')`), as in `_parse_price`. -/
def findPriceNumber : List Char → Option ℚ
  | [] => none
  | c :: rest =>
    if isDigit c then
      let intDs := c :: rest.takeWhile isDigit
      let gr := groupDigits (rest.dropWhile isDigit)
      some (decimalVal (intDs ++ gr.1) (fracDigits gr.2))
    else findPriceNumber rest

/-- A Python value that is either already numeric or text
(`Union[str, float]` in the parser signatures). -/
inductive NumOrText where
  | num (q : ℚ)
  | txt (s : String)
deriving DecidableEq

/-- Model of `CleanNormalizePipeline._parse_size` (clean_normalize.py 213-229). -/
def parseSize : NumOrText → Option ℚ
  | .num q => some q
  | .txt s =>
    if s.data = [] then none
    else findNumber (stripL (replaceAllL [','] s.data))

/-- Model of `CleanNormalizePipeline._parse_bedrooms` (clean_normalize.py 276-295). -/
def parseBedrooms : NumOrText → Option ℚ
  | .num q => some q
  | .txt s =>
    if s.data = [] then none
    else
      let t := stripL (lowerL s.data)
      if containsSub "studio".data t then some 0 else findNumber t

/-- Model of `CleanNormalizePipeline._parse_bathrooms` (clean_normalize.py 297-310). -/
def parseBathrooms : NumOrText → Option ℚ
  | .num q => some q
  | .txt s => if s.data = [] then none else findNumber s.data

/-- The `{value, currency, note}` dict returned by `_parse_price`. -/
structure PriceTriple where
  value : Option ℚ
  currency : String
  note : Option String
deriving DecidableEq

/-- The currency-scan loop of `_parse_price`: the first table entry whose
symbol occurs in the text sets the currency, and the symbol is removed. -/
def stripSymbol (tbl : List (String × String)) (t : List Char) :
    Option String × List Char :=
  match tbl.find? (fun p => containsSub p.1.data t) with
  | some p => (some p.2, stripL (replaceAllL p.1.data t))
  | none => (none, t)

/-- The note-detection block of `_parse_price` (clean_normalize.py
260-265), run after value extraction on the symbol-stripped text: "from"
wins, else "request"/"contact" sets the note and discards the value. -/
def noteSelect (low : List Char) (v0 : Option ℚ) : Option ℚ × Option String :=
  if containsSub "from".data low then (v0, some "From")
  else if containsSub "request".data low || containsSub "contact".data low then
    (none, some "Price on request")
  else (v0, none)

/-- Model of `CleanNormalizePipeline._parse_price` (clean_normalize.py 231-274),
parameterized by the configured currency-symbol table. -/
def parsePrice (tbl : List (String × String)) : NumOrText → Option PriceTriple
  | .num q => some ⟨some q, "USD", none⟩
  | .txt s =>
    if s.data = [] then none else
    let cur := stripSymbol tbl (stripL s.data)
    let vn := noteSelect (lowerL cur.2) (findPriceNumber cur.2)
    if vn.1 = none ∧ cur.1 = none then none
    else some ⟨vn.1, (cur.1).getD "USD", vn.2⟩

/-- Modelled from the spec: the currency symbol → ISO-code table is loaded
from `config.yaml`, which is absent from the sources; the spec's §4.2 names
`$`→USD, `£`→GBP, `AED`→AED, `S$`→SGD as example entries (`S$` listed
before `$` so the more specific symbol wins). -/
def specCurrencyTable : List (String × String) :=
  [("S$", "SGD"), ("$", "USD"), ("£", "GBP"), ("€", "EUR"), ("AED", "AED")]

/-- Model of `UnitIn.validate_numeric_fields` (schemas.py 58-62): a negative numeric
field is replaced by `None`. -/
def validateNumericField : Option ℚ → Option ℚ
  | none => none
  | some v => if v < 0 then none else some v

/-- The parent (`Project`) field map flowing through the pipeline; `none`
is a missing/None field.  The fields are exactly the `valid_fields` set of
`clean_project_data_for_db` (database.py 166-170). -/
structure ProjectData where
  name : Option String := none
  developer_name : Option String := none
  brand_flag : Option String := none
  property_type : Option String := none
  status : Option String := none
  country : Option String := none
  city : Option String := none
  address : Option String := none
  latitude : Option ℚ := none
  longitude : Option ℚ := none
  est_completion : Option String := none
  website_url : Option String := none
  inquiry_url : Option String := none
  contact_email : Option String := none
  description : Option String := none
  completeness_score : Option ℚ := none
deriving DecidableEq

/-- Python truthiness of an optional string field (`project_data.get(f)`
in a boolean context): present and non-empty. -/
def present : Option String → Bool
  | none => false
  | some s => !s.isEmpty

/-- The weighted running sum of `compute_completeness_score`
(database.py 123-154 and schemas.py 125-156, identical logic). -/
def scoreSum (p : ProjectData) : ℚ :=
  (if present p.name then 2 else 0) +
  (if present p.city then 1 else 0) +
  (if present p.country then 1 else 0) +
  (if present p.website_url then 1 else 0) +
  (if present p.developer_name then 1/2 else 0) +
  (if present p.address then 1/2 else 0) +
  (if present p.description then 1/2 else 0) +
  (if present p.contact_email || present p.inquiry_url then 1/2 else 0) +
  (if present p.est_completion then 1/2 else 0) +
  (if present p.status then 1/2 else 0)

/-- Model of `compute_completeness_score`: the weighted sum over `max_score = 10.0`,
clamped to at most `1.0`. -/
def computeCompletenessScore (p : ProjectData) : ℚ :=
  min (scoreSum p / 10) 1

/-- Names of the string-valued parent fields. -/
inductive FieldName where
  | name | developer_name | brand_flag | property_type | status | country
  | city | address | est_completion | website_url | inquiry_url
  | contact_email | description
deriving DecidableEq

/-- Field projection by name. -/
def getF : FieldName → ProjectData → Option String
  | .name, p => p.name
  | .developer_name, p => p.developer_name
  | .brand_flag, p => p.brand_flag
  | .property_type, p => p.property_type
  | .status, p => p.status
  | .country, p => p.country
  | .city, p => p.city
  | .address, p => p.address
  | .est_completion, p => p.est_completion
  | .website_url, p => p.website_url
  | .inquiry_url, p => p.inquiry_url
  | .contact_email, p => p.contact_email
  | .description, p => p.description

/-- The ten weighted entries of the completeness scorer. -/
inductive WeightedField where
  | wname | wcity | wcountry | wwebsite | wdeveloper | waddress
  | wdescription | wcontact | wcompletion | wstatus
deriving DecidableEq

/-- The parent fields feeding each weighted entry (the contact entry is the
disjunction of two fields). -/
def wfields : WeightedField → List FieldName
  | .wname => [.name]
  | .wcity => [.city]
  | .wcountry => [.country]
  | .wwebsite => [.website_url]
  | .wdeveloper => [.developer_name]
  | .waddress => [.address]
  | .wdescription => [.description]
  | .wcontact => [.contact_email, .inquiry_url]
  | .wcompletion => [.est_completion]
  | .wstatus => [.status]

/-- Whether a weighted scorer entry counts as present for a project. -/
def wPresent (f : WeightedField) (p : ProjectData) : Bool :=
  (wfields f).any (fun g => present (getF g p))

/-- Model of `' '.join(...)` over the key components. -/
def joinSpace : List (List Char) → List Char
  | [] => []
  | [x] => x
  | x :: xs => x ++ ' ' :: joinSpace xs

/-- Modelled from the spec: `slugify` is the external python-slugify
library, absent from the sources; §4.5 specifies it as lower-case,
non-alphanumeric runs to a single hyphen, leading/trailing hyphens
removed. -/
def slugifyL (l : List Char) : List Char :=
  dropTrail (fun c => c == '-')
    ((runsAux (fun c => !isAlnum c) '-' false (lowerL l)).dropWhile (fun c => c == '-'))

/-- A key component: coerce `None` to the empty string and strip it
(dedupe.py 50-59). -/
def strippedField (o : Option String) : List Char :=
  stripL (o.getD "").data

/-- Model of `DedupePipeline._generate_project_key` (dedupe.py 48-65): strip the
four key fields, drop the empty ones, join with single spaces, slugify. -/
def generateProjectKey (p : ProjectData) : String :=
  let comps := [strippedField p.name, strippedField p.developer_name,
                strippedField p.city, strippedField p.country]
  String.mk (slugifyL (joinSpace (comps.filter (fun c => !c.isEmpty))))

/-- A child unit record (the `UnitIn` field set, schemas.py 39-56). -/
structure UnitData where
  unit_name : Option String := none
  bedrooms : Option ℚ := none
  bathrooms : Option ℚ := none
  size_sqft : Option ℚ := none
  size_sqm : Option ℚ := none
  price_local_value : Option ℚ := none
  price_local_currency : Option String := none
  price_note : Option String := none
  floor : Option String := none
  exposure : Option String := none
  maintenance_fees : Option String := none
  tax_note : Option String := none
  availability_status : Option String := none
  floorplan_url : Option String := none
  vr_url : Option String := none
  brochure_url : Option String := none
deriving DecidableEq

/-- A child media-link record (`MediaLinkIn`, schemas.py 74-78). -/
structure MediaData where
  type : String
  url : String
  caption : Option String := none
deriving DecidableEq

/-- A child source record (`SourceIn`, schemas.py 93-98). -/
structure SourceData where
  source_name : String
  source_url : String
  robots_ok : Bool := true
  tos_ok : Bool := true
deriving DecidableEq

/-- A scraped item flowing through the pipelines, with the `_is_update` /
`_existing_project_id` flags set by the dedupe stage. -/
structure Item where
  project : ProjectData
  units : List UnitData := []
  amenities : List String := []
  media_links : List MediaData := []
  source : Option SourceData := none
  isUpdate : Bool := false
  existingId : Option Nat := none
deriving DecidableEq

/-- The external SQLite store: rows of each table, children tagged with
their `project_id`, plus the next fresh primary key (SQLite ids start
at 1). -/
structure Store where
  projects : List (Nat × ProjectData) := []
  units : List (Nat × UnitData) := []
  amenities : List (Nat × String) := []
  media_links : List (Nat × MediaData) := []
  sources : List (Nat × SourceData) := []
  nextId : Nat := 1
deriving DecidableEq

def emptyStore : Store := {}

/-- Model of `DatabaseManager.get_project_by_key` (io.py 98-114): exact equality on
the four key columns (a `None` argument is SQL `IS NULL`), optionally
narrowed by `website_url` when that argument is truthy. -/
def getProjectByKey (st : Store) (name dev city country : Option String)
    (web : Option String) : Option (Nat × ProjectData) :=
  st.projects.find? (fun e =>
    e.2.name == name && e.2.developer_name == dev && e.2.city == city &&
    e.2.country == country &&
    (match web with
     | some w => if w == "" then true else e.2.website_url == some w
     | none => true))

/-- The `setattr`-if-not-None loop shared by `upsert_project` (io.py
131-133) and `update_project` (database.py 111-113): a non-null incoming
field overwrites, a null one leaves the stored value. -/
def mergeProject (stored incoming : ProjectData) : ProjectData where
  name := incoming.name <|> stored.name
  developer_name := incoming.developer_name <|> stored.developer_name
  brand_flag := incoming.brand_flag <|> stored.brand_flag
  property_type := incoming.property_type <|> stored.property_type
  status := incoming.status <|> stored.status
  country := incoming.country <|> stored.country
  city := incoming.city <|> stored.city
  address := incoming.address <|> stored.address
  latitude := incoming.latitude <|> stored.latitude
  longitude := incoming.longitude <|> stored.longitude
  est_completion := incoming.est_completion <|> stored.est_completion
  website_url := incoming.website_url <|> stored.website_url
  inquiry_url := incoming.inquiry_url <|> stored.inquiry_url
  contact_email := incoming.contact_email <|> stored.contact_email
  description := incoming.description <|> stored.description
  completeness_score := incoming.completeness_score <|> stored.completeness_score

/-- Model of `DatabaseManager.upsert_project` (io.py 116-147): look the key up; on a
hit merge the non-null incoming fields into the stored row, otherwise
insert a fresh row. -/
def upsertProject (st : Store) (pd : ProjectData) : Nat × Store :=
  match getProjectByKey st pd.name pd.developer_name pd.city pd.country pd.website_url with
  | some e =>
    let rows := st.projects.map (fun q => if q.1 == e.1 then (q.1, mergeProject q.2 pd) else q)
    (e.1, { st with projects := rows })
  | none =>
    let rows := st.projects ++ [(st.nextId, pd)]
    (st.nextId, { st with projects := rows, nextId := st.nextId + 1 })

/-- Model of `DatabaseManager.add_units` (io.py 149-162): one transaction appending
every unit, or an error leaving the store untouched. -/
def addUnits (fail : Bool) (pid : Nat) (us : List UnitData) (st : Store) :
    Except String Store :=
  if fail then .error "add_units failed"
  else .ok { st with units := st.units ++ us.map (fun u => (pid, u)) }

/-- Model of `DatabaseManager.add_amenities` (io.py 164-176). -/
def addAmenities (fail : Bool) (pid : Nat) (ams : List String) (st : Store) :
    Except String Store :=
  if fail then .error "add_amenities failed"
  else .ok { st with amenities := st.amenities ++ ams.map (fun a => (pid, a)) }

/-- Model of `DatabaseManager.add_media_links` (io.py 178-191). -/
def addMediaLinks (fail : Bool) (pid : Nat) (ms : List MediaData) (st : Store) :
    Except String Store :=
  if fail then .error "add_media_links failed"
  else .ok { st with media_links := st.media_links ++ ms.map (fun m => (pid, m)) }

/-- Model of `DatabaseManager.add_source` (io.py 193-205). -/
def addSource (fail : Bool) (pid : Nat) (sd : SourceData) (st : Store) :
    Except String Store :=
  if fail then .error "add_source failed"
  else .ok { st with sources := st.sources ++ [(pid, sd)] }

/-- Which child-append store calls fail (failure injection for the
error-handling claims). -/
structure FailSpec where
  units : Bool := false
  amenities : Bool := false
  media : Bool := false
  source : Bool := false
deriving DecidableEq

def noFail : FailSpec := {}

/-- Model of `project_data['completeness_score'] = self.compute_completeness_score(...)`
(database.py 92 and 102). -/
def withScore (p : ProjectData) : ProjectData :=
  { p with completeness_score := some (computeCompletenessScore p) }

/-- Model of `clean_project_data_for_db` (database.py 156-174): on this model the
email rename has already happened and every field is in `valid_fields`, so
the filter is the identity. -/
def cleanProjectDataForDb (p : ProjectData) : ProjectData := p

/-- Model of `DatabasePipeline.create_project` (database.py 89-97). -/
def pipelineCreateProject (st : Store) (p : ProjectData) : Nat × Store :=
  upsertProject st (cleanProjectDataForDb (withScore p))

/-- Model of `DatabasePipeline.update_project` (database.py 99-121): recompute the
score, find the row by id, merge non-null fields; a missing id raises. -/
def pipelineUpdateProject (st : Store) (pid : Nat) (p : ProjectData) :
    Except String (ProjectData × Store) :=
  let pd := withScore p
  match st.projects.find? (fun e => e.1 == pid) with
  | some e =>
    let merged := mergeProject e.2 pd
    let rows := st.projects.map (fun q => if q.1 == pid then (q.1, merged) else q)
    .ok (merged, { st with projects := rows })
  | none => .error ("Project with ID " ++ toString pid ++ " not found")

/-- Model of `DatabasePipeline.process_item` (database.py 28-87): parent write
followed by the four child appends, each in its own store transaction; any
exception is wrapped into `DropItem("Database storage failed: ...")` with
the store left as the already-committed calls produced it. -/
def dbProcessItem (fl : FailSpec) (st : Store) (it : Item) :
    Except String Item × Store :=
  if !present it.project.name then
    (.error "Database storage failed: Project name is required", st)
  else
    let go : Except String (Nat × Store) :=
      if it.isUpdate && (it.existingId.getD 0) != 0 then
        match pipelineUpdateProject st (it.existingId.getD 0) it.project with
        | .error m => .error m
        | .ok pr => .ok (it.existingId.getD 0, pr.2)
      else .ok (pipelineCreateProject st it.project)
    match go with
    | .error m => (.error ("Database storage failed: " ++ m), st)
    | .ok (pid, st1) =>
      match (if it.units.isEmpty then .ok st1 else addUnits fl.units pid it.units st1) with
      | .error m => (.error ("Database storage failed: " ++ m), st1)
      | .ok st2 =>
        match (if it.amenities.isEmpty then .ok st2
               else addAmenities fl.amenities pid it.amenities st2) with
        | .error m => (.error ("Database storage failed: " ++ m), st2)
        | .ok st3 =>
          match (if it.media_links.isEmpty then .ok st3
                 else addMediaLinks fl.media pid it.media_links st3) with
          | .error m => (.error ("Database storage failed: " ++ m), st3)
          | .ok st4 =>
            match (match it.source with
                   | some sd => addSource fl.source pid sd st4
                   | none => .ok st4) with
            | .error m => (.error ("Database storage failed: " ++ m), st4)
            | .ok st5 => (.ok it, st5)

/-- Severity of a structlog call. -/
inductive LogLevel where
  | info | error
deriving DecidableEq

/-- Model of `DedupePipeline._check_existing_project` (dedupe.py 67-79). -/
def checkExistingProject (st : Store) (p : ProjectData) : Option (Nat × ProjectData) :=
  getProjectByKey st p.name p.developer_name p.city p.country p.website_url

/-- Model of `DedupePipeline.process_item` (dedupe.py 20-46), returning the outcome,
the log entries, and the updated in-run key set.  A duplicate raises
`DropItem`, which the stage's own blanket `except Exception` catches,
logs as an error and re-raises wrapped. -/
def dedupeProcessItem (st : Store) (keys : List String) (it : Item) :
    Except String Item × List (LogLevel × String) × List String :=
  let key := generateProjectKey it.project
  if key ∈ keys then
    (.error ("Deduplication failed: " ++ ("Duplicate project: " ++ key)),
     [(.info, "Duplicate project found, skipping"),
      (.error, "Error in deduplication pipeline")],
     keys)
  else
    match checkExistingProject st it.project with
    | some e =>
      (.ok { it with isUpdate := true, existingId := some e.1 },
       [(.info, "Project exists in database, will update")],
       key :: keys)
    | none => (.ok { it with isUpdate := false }, [], key :: keys)

/-- One record through dedupe then database stage (pipeline order 200, 300
in settings.py); a record dropped by dedupe never reaches the store. -/
def processRecord (st : Store) (keys : List String) (it : Item) :
    Store × List String :=
  match dedupeProcessItem st keys it with
  | (.error _, _, keys') => (st, keys')
  | (.ok it', _, keys') => ((dbProcessItem noFail st it').2, keys')

/-- A crawl run: the in-memory dedupe key set starts empty and does not
survive across runs. -/
def runItems (st : Store) (its : List Item) : Store :=
  (its.foldl (fun acc it => processRecord acc.1 acc.2 it) (st, [])).1

/-- Concrete record used by the cross-run duplicate scenario. -/
def itemA : Item :=
  { project := { name := some "Tower A", developer_name := some "Dev Co",
                 city := some "Miami", country := some "USA" } }

/-- The same record with the key fields upper-cased. -/
def itemB : Item :=
  { project := { name := some "TOWER A", developer_name := some "DEV CO",
                 city := some "MIAMI", country := some "USA" } }

/-- Concrete record with one child of every kind, used by the atomicity
scenario. -/
def itemC : Item :=
  { project := { name := some "P1" },
    units := [{ bedrooms := some 2 }],
    amenities := ["Pool"],
    media_links := [{ type := "image", url := "https://x/i.jpg" }],
    source := some { source_name := "s", source_url := "https://s" } }

/-- A project record with every weighted field populated. -/
def fullProject : ProjectData :=
  { name := some "x", developer_name := some "x", brand_flag := some "x",
    property_type := some "x", status := some "x", country := some "x",
    city := some "x", address := some "x", est_completion := some "x",
    website_url := some "x", inquiry_url := some "x",
    contact_email := some "x", description := some "x" }

/-- A project record with only the name populated. -/
def nameOnlyProject : ProjectData := { name := some "N" }

/-- A one-row store whose project 1 has a name, a city and a description. -/
def storeD : Store :=
  { projects := [(1, { name := some "Old", city := some "OldCity",
                       description := some "OldDesc" })], nextId := 2 }

/-- An incoming update that sets the city and clears nothing. -/
def updC : ProjectData := { city := some "NewCity" }

/-- The `DropItem` message of a failed outcome, if any. -/
def errMsg {α : Type} : Except String α → Option String
  | .error m => some m
  | .ok _ => none

theorem noLead_dropWhile (l : List Char) : NoLead (l.dropWhile isSpace) := by
  induction l with
  | nil => simp [List.dropWhile, NoLead]
  | cons c rest ih =>
    by_cases h : isSpace c
    · simpa [List.dropWhile, h] using ih
    · simp only [List.dropWhile, h]
      simpa [NoLead] using h

theorem noTrail_dropTrail (l : List Char) : NoTrail (dropTrail isSpace l) := by
  induction l with
  | nil => simp [dropTrail, NoTrail]
  | cons c rest ih =>
    simp only [dropTrail]
    cases h : dropTrail isSpace rest with
    | nil =>
      by_cases hc : isSpace c
      · simp [hc, NoTrail]
      · simp [hc, NoTrail]
    | cons x xs =>
      rw [h] at ih
      simpa [NoTrail] using ih

theorem noLead_dropTrail (l : List Char) (h : NoLead l) :
    NoLead (dropTrail isSpace l) := by
  cases l with
  | nil => simp [dropTrail, NoLead]
  | cons c rest =>
    simp only [NoLead] at h
    simp only [dropTrail]
    cases dropTrail isSpace rest with
    | nil => simp [h, NoLead]
    | cons x xs => simpa [NoLead] using h

theorem noLead_stripL (l : List Char) : NoLead (stripL l) :=
  noLead_dropTrail _ (noLead_dropWhile l)

theorem noTrail_stripL (l : List Char) : NoTrail (stripL l) :=
  noTrail_dropTrail _

theorem nspace_runsAux (l : List Char) (b : Bool) :
    NSpace (runsAux isSpace ' ' b l) := by
  induction l generalizing b with
  | nil => intro c hm; simp [runsAux] at hm
  | cons c rest ih =>
    intro c' hm hsp
    by_cases hc : isSpace c
    · cases b with
      | true =>
        rw [show runsAux isSpace ' ' true (c :: rest) = runsAux isSpace ' ' true rest by
          simp [runsAux, hc]] at hm
        exact ih true c' hm hsp
      | false =>
        rw [show runsAux isSpace ' ' false (c :: rest) = ' ' :: runsAux isSpace ' ' true rest by
          simp [runsAux, hc]] at hm
        rcases List.mem_cons.mp hm with h1 | h2
        · exact h1
        · exact ih true c' h2 hsp
    · rw [show runsAux isSpace ' ' b (c :: rest) = c :: runsAux isSpace ' ' false rest by
        cases b <;> simp [runsAux, hc]] at hm
      rcases List.mem_cons.mp hm with h1 | h2
      · subst h1; exact absurd hsp hc
      · exact ih false c' h2 hsp

theorem nadj_runsAux (l : List Char) :
    NAdj (runsAux isSpace ' ' false l) ∧ NAdj (runsAux isSpace ' ' true l) ∧
    NoLead (runsAux isSpace ' ' true l) := by
  induction l with
  | nil => simp [runsAux, NAdj, NoLead]
  | cons c rest ih =>
    obtain ⟨ihF, ihT, ihL⟩ := ih
    by_cases hc : isSpace c
    · refine ⟨?_, by simpa [runsAux, hc] using ihT, by simpa [runsAux, hc] using ihL⟩
      rw [show runsAux isSpace ' ' false (c :: rest) = ' ' :: runsAux isSpace ' ' true rest by
        simp [runsAux, hc]]
      cases hY : runsAux isSpace ' ' true rest with
      | nil => simp [NAdj]
      | cons y ys =>
        rw [hY] at ihT ihL
        simp only [NoLead] at ihL
        exact ⟨fun hpair => by simp [ihL] at hpair, ihT⟩
    · have hstep : ∀ b : Bool, runsAux isSpace ' ' b (c :: rest) =
          c :: runsAux isSpace ' ' false rest := by
        intro b; cases b <;> simp [runsAux, hc]
      rw [hstep true, hstep false]
      have hcons : NAdj (c :: runsAux isSpace ' ' false rest) := by
        cases hZ : runsAux isSpace ' ' false rest with
        | nil => simp [NAdj]
        | cons z zs =>
          rw [hZ] at ihF
          exact ⟨fun hpair => by simp [hpair.1] at hc, ihF⟩
      exact ⟨hcons, hcons, by simpa [NoLead] using hc⟩

theorem noTrail_tail (c : Char) (rest : List Char) (h : NoTrail (c :: rest)) :
    NoTrail rest := by
  cases rest with
  | nil => simp [NoTrail]
  | cons x xs => simpa [NoTrail] using h

theorem nadj_tail (c : Char) (rest : List Char) (h : NAdj (c :: rest)) :
    NAdj rest := by
  cases rest with
  | nil => simp [NAdj]
  | cons x xs => exact h.2

theorem runsAux_ne (l : List Char) (hl : l ≠ []) (ht : NoTrail l) (b : Bool) :
    runsAux isSpace ' ' b l ≠ [] := by
  induction l generalizing b with
  | nil => exact absurd rfl hl
  | cons c rest ih =>
    by_cases hc : isSpace c
    · have hrest : rest ≠ [] := by
        intro h; subst h
        simp only [NoTrail] at ht
        rw [hc] at ht; cases ht
      have ht' : NoTrail rest := noTrail_tail c rest ht
      cases b with
      | false => simp [runsAux, hc]
      | true =>
        rw [show runsAux isSpace ' ' true (c :: rest) = runsAux isSpace ' ' true rest by
          simp [runsAux, hc]]
        exact ih hrest ht' true
    · cases b <;> simp [runsAux, hc]

theorem noTrail_runsAux (l : List Char) (ht : NoTrail l) (b : Bool) :
    NoTrail (runsAux isSpace ' ' b l) := by
  induction l generalizing b with
  | nil => simp [runsAux, NoTrail]
  | cons c rest ih =>
    cases hr : rest with
    | nil =>
      subst hr
      simp only [NoTrail] at ht
      simp [runsAux, ht, NoTrail]
    | cons x xs =>
      subst hr
      have ht' : NoTrail (x :: xs) := noTrail_tail c _ ht
      have hne : (x :: xs) ≠ ([] : List Char) := List.cons_ne_nil x xs
      by_cases hc : isSpace c
      · cases b with
        | true =>
          rw [show runsAux isSpace ' ' true (c :: x :: xs) =
              runsAux isSpace ' ' true (x :: xs) by simp [runsAux, hc]]
          exact ih ht' true
        | false =>
          rw [show runsAux isSpace ' ' false (c :: x :: xs)
              = ' ' :: runsAux isSpace ' ' true (x :: xs) by simp [runsAux, hc]]
          have hY := runsAux_ne _ hne ht' true
          have hT := ih ht' true
          cases hY2 : runsAux isSpace ' ' true (x :: xs) with
          | nil => exact absurd hY2 hY
          | cons y ys => rw [hY2] at hT; simpa [NoTrail] using hT
      · rw [show runsAux isSpace ' ' b (c :: x :: xs)
            = c :: runsAux isSpace ' ' false (x :: xs) by cases b <;> simp [runsAux, hc]]
        have hY := runsAux_ne _ hne ht' false
        have hT := ih ht' false
        cases hY2 : runsAux isSpace ' ' false (x :: xs) with
        | nil => exact absurd hY2 hY
        | cons y ys => rw [hY2] at hT; simpa [NoTrail] using hT

theorem noLead_collapseWs (l : List Char) (h : NoLead l) : NoLead (collapseWs l) := by
  cases l with
  | nil => simp [collapseWs, runsAux, NoLead]
  | cons c rest =>
    simp only [NoLead] at h
    simp [collapseWs, runsAux, h, NoLead]

theorem pAux_nil_noLead (l : List Char) (h : NoLead l) : NoLead (pAux [] l) := by
  cases l with
  | nil => simp [pAux, NoLead]
  | cons c rest =>
    simp only [NoLead] at h
    simp [pAux, h, NoLead]

theorem nspace_pAux (pending l : List Char)
    (hp : ∀ c ∈ pending, isSpace c = true → c = ' ') (hl : NSpace l) :
    NSpace (pAux pending l) := by
  induction l generalizing pending with
  | nil =>
    intro c hm hsp
    rw [show pAux pending [] = pending.reverse from rfl] at hm
    exact hp c (List.mem_reverse.mp hm) hsp
  | cons c rest ih =>
    have hlr : NSpace rest := fun c' hm hsp => hl c' (List.mem_cons_of_mem c hm) hsp
    intro c' hm hsp
    by_cases hc : isSpace c
    · rw [show pAux pending (c :: rest) = pAux (c :: pending) rest by simp [pAux, hc]] at hm
      refine ih (c :: pending) ?_ hlr c' hm hsp
      intro d hd hds
      rcases List.mem_cons.mp hd with h1 | h2
      · subst h1; exact hl _ (List.mem_cons_self _ _) hds
      · exact hp d h2 hds
    · by_cases hpu : isPunct c && !pending.isEmpty
      · rw [show pAux pending (c :: rest) = c :: pAux [] rest by simp [pAux, hc, hpu]] at hm
        rcases List.mem_cons.mp hm with h1 | h2
        · subst h1; exact absurd hsp hc
        · exact ih [] (by simp) hlr c' h2 hsp
      · rw [show pAux pending (c :: rest) = pending.reverse ++ c :: pAux [] rest by
          simp only [pAux, hc, hpu]; simp] at hm
        rcases List.mem_append.mp hm with h1 | h2
        · exact hp c' (List.mem_reverse.mp h1) hsp
        · rcases List.mem_cons.mp h2 with h3 | h4
          · subst h3; exact absurd hsp hc
          · exact ih [] (by simp) hlr c' h4 hsp

theorem spacedOk_cons (a : Char) (Y : List Char) (ha : isSpace a = false)
    (hY : SpacedOk Y) : SpacedOk (a :: Y) := by
  cases Y with
  | nil => simp [SpacedOk]
  | cons y ys => exact ⟨fun h => absurd h (by simp [ha]), hY⟩

theorem noTrail_cons (a : Char) (Y : List Char) (h : Y = [] → isSpace a = false)
    (hY : NoTrail Y) : NoTrail (a :: Y) := by
  cases Y with
  | nil => simpa [NoTrail] using h rfl
  | cons y ys => simpa [NoTrail] using hY

theorem spacedOk_tail (c : Char) (rest : List Char) (h : SpacedOk (c :: rest)) :
    SpacedOk rest := by
  cases rest with
  | nil => simp [SpacedOk]
  | cons x xs => exact h.2

theorem pAux_build (l : List Char) (ha : NAdj l) (ht : NoTrail l) :
    (SpacedOk (pAux [] l) ∧ NoTrail (pAux [] l)) ∧
    (∀ s, isSpace s = true →
      (∃ c rest, l = c :: rest ∧ isSpace c = false) →
      SpacedOk (pAux [s] l) ∧ NoTrail (pAux [s] l)) := by
  induction l with
  | nil =>
    refine ⟨by simp [pAux, SpacedOk, NoTrail], ?_⟩
    rintro s hs ⟨c, rest, heq, -⟩
    cases heq
  | cons c rest ih =>
    have ih' := ih (nadj_tail c rest ha) (noTrail_tail c rest ht)
    constructor
    · by_cases hc : isSpace c
      · cases hrest : rest with
        | nil =>
          subst hrest
          simp only [NoTrail] at ht
          rw [hc] at ht; cases ht
        | cons x xs =>
          subst hrest
          have hx : isSpace x = false := by
            rcases ha with ⟨hpair, -⟩
            by_cases h : isSpace x
            · exact absurd ⟨hc, h⟩ hpair
            · simpa using h
          rw [show pAux [] (c :: x :: xs) = pAux [c] (x :: xs) by simp [pAux, hc]]
          exact ih'.2 c hc ⟨x, xs, rfl, hx⟩
      · have hc' : isSpace c = false := by simpa using hc
        rw [show pAux [] (c :: rest) = c :: pAux [] rest by simp [pAux, hc]]
        exact ⟨spacedOk_cons c _ hc' ih'.1.1,
          noTrail_cons c _ (fun _ => hc') ih'.1.2⟩
    · rintro s hs ⟨c', rest', heq, hc'⟩
      injection heq with h1 h2
      subst h1; subst h2
      by_cases hp : isPunct c
      · rw [show pAux [s] (c :: rest) = c :: pAux [] rest by simp [pAux, hc', hp]]
        exact ⟨spacedOk_cons c _ hc' ih'.1.1,
          noTrail_cons c _ (fun _ => hc') ih'.1.2⟩
      · have hp' : isPunct c = false := by simpa using hp
        rw [show pAux [s] (c :: rest) = s :: c :: pAux [] rest by
          simp [pAux, hc', hp']]
        refine ⟨⟨fun _ => ⟨hc', hp'⟩, spacedOk_cons c _ hc' ih'.1.1⟩, ?_⟩
        have : NoTrail (c :: pAux [] rest) :=
          noTrail_cons c _ (fun _ => hc') ih'.1.2
        simpa [NoTrail] using this

theorem dropWhile_fix (l : List Char) (h : NoLead l) : l.dropWhile isSpace = l := by
  cases l with
  | nil => rfl
  | cons c rest =>
    simp only [NoLead] at h
    simp [List.dropWhile, h]

theorem dropTrail_fix (l : List Char) (h : NoTrail l) : dropTrail isSpace l = l := by
  induction l with
  | nil => rfl
  | cons c rest ih =>
    cases hr : rest with
    | nil =>
      subst hr
      simp only [NoTrail] at h
      simp [dropTrail, h]
    | cons x xs =>
      subst hr
      have h2 := ih (noTrail_tail c _ h)
      rw [show dropTrail isSpace (c :: x :: xs) =
          (match dropTrail isSpace (x :: xs) with
            | [] => if isSpace c = true then [] else [c]
            | r => c :: r) from rfl, h2]

theorem stripL_fix (l : List Char) (h1 : NoLead l) (h2 : NoTrail l) :
    stripL l = l := by
  unfold stripL
  rw [dropWhile_fix l h1, dropTrail_fix l h2]

theorem runsAux_true_of_noLead (l : List Char) (h : NoLead l) :
    runsAux isSpace ' ' true l = runsAux isSpace ' ' false l := by
  cases l with
  | nil => rfl
  | cons c rest =>
    simp only [NoLead] at h
    simp [runsAux, h]

theorem collapseWs_fix (l : List Char) (hs : NSpace l) (ha : NAdj l) :
    collapseWs l = l := by
  unfold collapseWs
  induction l with
  | nil => rfl
  | cons c rest ih =>
    have hsr : NSpace rest := fun c' hm hsp => hs c' (List.mem_cons_of_mem c hm) hsp
    have har : NAdj rest := nadj_tail c rest ha
    by_cases hc : isSpace c
    · have hceq : c = ' ' := hs c (List.mem_cons_self c rest) hc
      have hlr : NoLead rest := by
        cases rest with
        | nil => simp [NoLead]
        | cons x xs =>
          rcases ha with ⟨hpair, -⟩
          by_cases hx : isSpace x
          · exact absurd ⟨hc, hx⟩ hpair
          · simpa [NoLead] using hx
      rw [show runsAux isSpace ' ' false (c :: rest) = ' ' :: runsAux isSpace ' ' true rest by
        simp [runsAux, hc]]
      rw [runsAux_true_of_noLead rest hlr, ih hsr har, hceq]
    · rw [show runsAux isSpace ' ' false (c :: rest) = c :: runsAux isSpace ' ' false rest by
        simp [runsAux, hc]]
      rw [ih hsr har]

theorem pAux_fix (l : List Char) (hs : SpacedOk l) (ht : NoTrail l) :
    pAux [] l = l ∧
    (∀ s, isSpace s = true →
      (∃ c rest, l = c :: rest ∧ isSpace c = false ∧ isPunct c = false) →
      pAux [s] l = s :: l) := by
  induction l with
  | nil =>
    refine ⟨rfl, ?_⟩
    rintro s hs' ⟨c, rest, heq, -⟩
    cases heq
  | cons c rest ih =>
    have ih' := ih (spacedOk_tail c rest hs) (noTrail_tail c rest ht)
    constructor
    · by_cases hc : isSpace c
      · cases hrest : rest with
        | nil =>
          subst hrest
          simp only [NoTrail] at ht
          rw [hc] at ht; cases ht
        | cons x xs =>
          subst hrest
          obtain ⟨hx1, hx2⟩ := hs.1 hc
          rw [show pAux [] (c :: x :: xs) = pAux [c] (x :: xs) by simp [pAux, hc]]
          exact ih'.2 c hc ⟨x, xs, rfl, hx1, hx2⟩
      · rw [show pAux [] (c :: rest) = c :: pAux [] rest by simp [pAux, hc]]
        rw [ih'.1]
    · rintro s hs' ⟨c', rest', heq, h1, h2⟩
      injection heq with e1 e2
      subst e1; subst e2
      rw [show pAux [s] (c :: rest) = s :: c :: pAux [] rest by simp [pAux, h1, h2]]
      rw [ih'.1]

theorem nadj_of_spacedOk (l : List Char) (h : SpacedOk l) : NAdj l := by
  induction l with
  | nil => simp [NAdj]
  | cons a rest ih =>
    cases rest with
    | nil => simp [NAdj]
    | cons b xs =>
      refine ⟨fun hpair => ?_, ih h.2⟩
      have := (h.1 hpair.1).1
      rw [hpair.2] at this; cases this

theorem cleanCore_fix (l : List Char)
    (h1 : NoLead l) (h2 : NoTrail l) (h3 : NSpace l) (h4 : SpacedOk l) :
    pAux [] (collapseWs (stripL l)) = l := by
  rw [stripL_fix l h1 h2, collapseWs_fix l h3 (nadj_of_spacedOk l h4), (pAux_fix l h4 h2).1]

/-- The nonempty-input branch of `_clean_text` at the `String` level. -/
theorem pclean_mk (l : List Char) (h : l ≠ []) :
    pipelineCleanText (String.mk l) = String.mk (pAux [] (collapseWs (stripL l))) := by
  simp [pipelineCleanText, List.isEmpty_iff, h]

/-- One pass of strip/collapse/punctuation-fix is a fixpoint of a second pass. -/
theorem cleanCore_idem (l : List Char) :
    pAux [] (collapseWs (stripL (pAux [] (collapseWs (stripL l))))) =
    pAux [] (collapseWs (stripL l)) := by
  have hs0 : NoLead (stripL l) := noLead_stripL _
  have ht0 : NoTrail (stripL l) := noTrail_stripL _
  have hns : NSpace (collapseWs (stripL l)) := nspace_runsAux _ false
  have hna : NAdj (collapseWs (stripL l)) := (nadj_runsAux _).1
  have hnl : NoLead (collapseWs (stripL l)) := noLead_collapseWs _ hs0
  have hnt : NoTrail (collapseWs (stripL l)) := noTrail_runsAux _ ht0 false
  have hbuild := pAux_build _ hna hnt
  exact cleanCore_fix _ (pAux_nil_noLead _ hnl) hbuild.1.2
    (nspace_pAux [] _ (by simp) hns) hbuild.1.1

/-- C6 (amended): the pipeline text cleaner `_clean_text` is idempotent,
and both cleaners map empty input to the empty string. -/
theorem c6_pipeline_clean_idempotent :
    (∀ s : String, pipelineCleanText (pipelineCleanText s) = pipelineCleanText s) ∧
    pipelineCleanText "" = "" ∧ htmlCleanText "" = "" := by
  refine ⟨?_, rfl, rfl⟩
  intro s
  by_cases h0 : s.data = []
  · rw [show pipelineCleanText s = "" by simp [pipelineCleanText, h0]]
    rfl
  · rw [show pipelineCleanText s = String.mk (pAux [] (collapseWs (stripL s.data))) by
      simp [pipelineCleanText, List.isEmpty_iff, h0]]
    by_cases hY : pAux [] (collapseWs (stripL s.data)) = []
    · rw [hY]; decide
    · rw [pclean_mk _ hY, cleanCore_idem s.data]

/-- C6 (counterexample): the HTML-entity cleaner `clean_text` of
spiders/utils/html.py is not idempotent: entity removal inserts a space
that is not re-collapsed, so a second application changes the result. -/
theorem c6_html_clean_not_idempotent :
    htmlCleanText "&amp;" = " " ∧ htmlCleanText (htmlCleanText "&amp;") = "" ∧
    htmlCleanText (htmlCleanText "&amp;") ≠ htmlCleanText "&amp;" := by
  refine ⟨by decide, by decide, by decide⟩

/-- C1 (code bug): `_parse_price("Price on request")` finds neither a
currency symbol nor a numeric value, so the final guard returns `None` —
no triple at all — even though the "request" note was detected; the spec's
parsing table and the repo's own test
(`tests/test_cleaning.py::test_parse_price`) expect
`{value: none, note: "Price on request"}`. -/
theorem c1_price_on_request_evaluates :
    parsePrice specCurrencyTable (NumOrText.txt "Price on request") = none ∧
    containsSub "request".data
      (lowerL (stripSymbol specCurrencyTable (stripL "Price on request".data)).2) = true :=
  ⟨by decide, by decide⟩

/-- A record whose canonical key was already seen in this run is rejected
by the dedupe stage without touching the store or the key set. -/
theorem processRecord_dup (st : Store) (keys : List String) (it : Item)
    (h : generateProjectKey it.project ∈ keys) :
    processRecord st keys it = (st, keys) := by
  simp [processRecord, dedupeProcessItem, h]

/-- A record whose canonical key is fresh records that key in the in-run
set, whatever the store does with it. -/
theorem processRecord_keys (st : Store) (keys : List String) (it : Item)
    (h : generateProjectKey it.project ∉ keys) :
    (processRecord st keys it).2 = generateProjectKey it.project :: keys := by
  cases hex : checkExistingProject st it.project <;>
    simp [processRecord, dedupeProcessItem, h, hex]

/-- C5 (amended): a record whose key was already seen in the run is
dropped with no store write and the first occurrence stays; the drop is
logged as a duplicate (info) but is also routed through the stage's
blanket exception handler, which logs it as an error and re-raises it
wrapped as "Deduplication failed: ...". -/
theorem c5_duplicate_drop_and_reporting (st : Store) (keys : List String) (it : Item)
    (h : generateProjectKey it.project ∈ keys) :
    dedupeProcessItem st keys it =
      (Except.error ("Deduplication failed: " ++
          ("Duplicate project: " ++ generateProjectKey it.project)),
       [(LogLevel.info, "Duplicate project found, skipping"),
        (LogLevel.error, "Error in deduplication pipeline")], keys) ∧
    processRecord st keys it = (st, keys) := by
  exact ⟨by simp [dedupeProcessItem, h], processRecord_dup st keys it h⟩

theorem c5_duplicate_drop_witness :
    processRecord emptyStore ["tower-a-dev-co-miami-usa"] itemA =
      (emptyStore, ["tower-a-dev-co-miami-usa"]) :=
  (c5_duplicate_drop_and_reporting emptyStore ["tower-a-dev-co-miami-usa"] itemA
    (by decide)).2

/-- C5 (counterexample): the duplicate drop is also reported through the
error path — an error-level log entry is emitted and the final `DropItem`
message is the wrapped "Deduplication failed: ...", not the plain
duplicate report. -/
theorem c5_duplicate_reported_as_error :
    errMsg (dedupeProcessItem emptyStore ["tower-a-dev-co-miami-usa"] itemA).1 =
      some "Deduplication failed: Duplicate project: tower-a-dev-co-miami-usa" ∧
    (LogLevel.error, "Error in deduplication pipeline") ∈
      (dedupeProcessItem emptyStore ["tower-a-dev-co-miami-usa"] itemA).2.1 :=
  ⟨by decide, by decide⟩

/-- C3 (amended): within one run the in-memory key set makes the first
occurrence win — a second record with the same slug key leaves the run's
final store unchanged. -/
theorem c3_within_run_first_wins (st : Store) (A B : Item)
    (hkey : generateProjectKey B.project = generateProjectKey A.project) :
    runItems st [A, B] = runItems st [A] := by
  unfold runItems
  simp only [List.foldl]
  have hk := processRecord_keys st [] A (by simp)
  have hdup : generateProjectKey B.project ∈ (processRecord st [] A).2 := by
    rw [hk, hkey]; exact List.mem_cons_self _ _
  rw [processRecord_dup _ _ _ hdup]

theorem c3_within_run_first_wins_witness :
    runItems emptyStore [itemA, itemB] = runItems emptyStore [itemA] :=
  c3_within_run_first_wins emptyStore itemA itemB (by decide)

/-- C3 (counterexample): across two runs the in-run key set is reset and
the store lookup compares the key fields case-sensitively, so two records
that agree on the canonical key up to case produce two distinct parent
rows with the same slug key. -/
theorem c3_cross_run_duplicate_parents :
    generateProjectKey itemA.project = generateProjectKey itemB.project ∧
    (runItems (runItems emptyStore [itemA]) [itemB]).projects.map Prod.fst = [1, 2] ∧
    (runItems (runItems emptyStore [itemA]) [itemB]).projects.map
        (fun e => generateProjectKey e.2) =
      ["tower-a-dev-co-miami-usa", "tower-a-dev-co-miami-usa"] :=
  ⟨by decide, by decide, by decide⟩

/-- C4 (confirmed): in the existing-record branch, `update_project` merges
only non-null incoming fields over the stored row: a null incoming field
leaves the stored value untouched and a non-null one overwrites it. -/
theorem c4_update_merges_non_null_only (st : Store) (pid : Nat) (p : ProjectData)
    (entry : Nat × ProjectData)
    (hfind : st.projects.find? (fun e => e.1 == pid) = some entry) :
    pipelineUpdateProject st pid p =
      Except.ok (mergeProject entry.2 (withScore p),
        { st with projects := st.projects.map (fun q => if q.1 == pid then (q.1, mergeProject entry.2 (withScore p)) else q) }) ∧
    (∀ f : FieldName, getF f p = none →
       getF f (mergeProject entry.2 (withScore p)) = getF f entry.2) ∧
    (∀ f v, getF f p = some v →
       getF f (mergeProject entry.2 (withScore p)) = some v) := by
  refine ⟨by simp [pipelineUpdateProject, hfind], ?_, ?_⟩
  · intro f hf
    cases f <;> (simp only [getF] at hf; simp [mergeProject, getF, withScore, hf])
  · intro f v hf
    cases f <;> (simp only [getF] at hf; simp [mergeProject, getF, withScore, hf])

theorem c4_update_merges_witness :
    getF FieldName.description
        (mergeProject ({ name := some "Old", city := some "OldCity", description := some "OldDesc" } : ProjectData) (withScore updC)) = some "OldDesc" ∧
    getF FieldName.city
        (mergeProject ({ name := some "Old", city := some "OldCity", description := some "OldDesc" } : ProjectData) (withScore updC)) = some "NewCity" := by
  have h := c4_update_merges_non_null_only storeD 1 updC
    (1, { name := some "Old", city := some "OldCity", description := some "OldDesc" })
    (by decide)
  exact ⟨h.2.1 FieldName.description rfl, h.2.2 FieldName.city "NewCity" rfl⟩

/-- The parent upsert never touches the child tables. -/
theorem upsertProject_children (st : Store) (pd : ProjectData) :
    (upsertProject st pd).2.units = st.units ∧
    (upsertProject st pd).2.amenities = st.amenities ∧
    (upsertProject st pd).2.media_links = st.media_links ∧
    (upsertProject st pd).2.sources = st.sources := by
  unfold upsertProject
  cases hex : getProjectByKey st pd.name pd.developer_name pd.city pd.country pd.website_url <;>
    simp

theorem createProject_sources (st : Store) (p : ProjectData) :
    (pipelineCreateProject st p).2.sources = st.sources :=
  (upsertProject_children st (cleanProjectDataForDb (withScore p))).2.2.2


/-- C2 (amended): each store call is individually atomic, but the record's
writes are not one unit: when the source append fails, the parent upsert
and the earlier child appends remain committed (they match the fully
successful run), only the source table is left untouched, and the record
is reported as failed. -/
theorem c2_source_failure_keeps_earlier_writes (st : Store) (it : Item)
    (hname : present it.project.name = true) (hupd : it.isUpdate = false)
    (hsrc : it.source.isSome = true) :
    (dbProcessItem { source := true } st it).1 =
      Except.error "Database storage failed: add_source failed" ∧
    ((dbProcessItem { source := true } st it).2).projects =
      ((dbProcessItem noFail st it).2).projects ∧
    ((dbProcessItem { source := true } st it).2).units =
      ((dbProcessItem noFail st it).2).units ∧
    ((dbProcessItem { source := true } st it).2).amenities =
      ((dbProcessItem noFail st it).2).amenities ∧
    ((dbProcessItem { source := true } st it).2).media_links =
      ((dbProcessItem noFail st it).2).media_links ∧
    ((dbProcessItem { source := true } st it).2).sources = st.sources := by
  cases hso : it.source with
  | none => rw [hso] at hsrc; cases hsrc
  | some sd =>
    cases hu : it.units.isEmpty <;> cases ha : it.amenities.isEmpty <;>
      cases hm : it.media_links.isEmpty <;>
      simp [dbProcessItem, noFail, addUnits, addAmenities, addMediaLinks, addSource,
        hname, hupd, hso, hu, ha, hm, createProject_sources]

theorem c2_source_failure_witness :
    ((dbProcessItem { source := true } emptyStore itemC).2).sources =
      emptyStore.sources ∧
    ((dbProcessItem { source := true } emptyStore itemC).2).units =
      ((dbProcessItem noFail emptyStore itemC).2).units := by
  have h := c2_source_failure_keeps_earlier_writes emptyStore itemC
    (by decide) rfl rfl
  exact ⟨h.2.2.2.2.2, h.2.2.1⟩

/-- C2 (counterexample): with the record of `itemC` and a failing source
append, `process_item` reports failure yet leaves the parent row, the
unit and the amenity committed — the store does not return to its prior
(empty) state. -/
theorem c2_not_atomic_counterexample :
    errMsg (dbProcessItem { source := true } emptyStore itemC).1 =
      some "Database storage failed: add_source failed" ∧
    ((dbProcessItem { source := true } emptyStore itemC).2).projects.map Prod.fst = [1] ∧
    ((dbProcessItem { source := true } emptyStore itemC).2).units.map Prod.fst = [1] ∧
    ((dbProcessItem { source := true } emptyStore itemC).2).amenities = [(1, "Pool")] ∧
    ((dbProcessItem { source := true } emptyStore itemC).2).sources = [] ∧
    (dbProcessItem { source := true } emptyStore itemC).2 ≠ emptyStore :=
  ⟨by decide, by decide, by decide, by decide, by decide, by decide⟩


/-- Both bounds of a weighted indicator term. -/
theorem ite_bounds (c : Prop) [Decidable c] (w : ℚ) (hw : 0 ≤ w) :
    0 ≤ (if c then w else 0) ∧ (if c then w else 0) ≤ w := by
  by_cases h : c <;> simp [h, hw]

theorem scoreSum_nonneg (p : ProjectData) : 0 ≤ scoreSum p := by
  unfold scoreSum
  have h1 := ite_bounds (present p.name = true) (2 : ℚ) (by norm_num)
  have h2 := ite_bounds (present p.city = true) (1 : ℚ) (by norm_num)
  have h3 := ite_bounds (present p.country = true) (1 : ℚ) (by norm_num)
  have h4 := ite_bounds (present p.website_url = true) (1 : ℚ) (by norm_num)
  have h5 := ite_bounds (present p.developer_name = true) (1/2 : ℚ) (by norm_num)
  have h6 := ite_bounds (present p.address = true) (1/2 : ℚ) (by norm_num)
  have h7 := ite_bounds (present p.description = true) (1/2 : ℚ) (by norm_num)
  have h8 := ite_bounds ((present p.contact_email || present p.inquiry_url) = true) (1/2 : ℚ) (by norm_num)
  have h9 := ite_bounds (present p.est_completion = true) (1/2 : ℚ) (by norm_num)
  have h10 := ite_bounds (present p.status = true) (1/2 : ℚ) (by norm_num)
  linarith [h1.1, h2.1, h3.1, h4.1, h5.1, h6.1, h7.1, h8.1, h9.1, h10.1]

theorem scoreSum_le_eight (p : ProjectData) : scoreSum p ≤ 8 := by
  unfold scoreSum
  have h1 := ite_bounds (present p.name = true) (2 : ℚ) (by norm_num)
  have h2 := ite_bounds (present p.city = true) (1 : ℚ) (by norm_num)
  have h3 := ite_bounds (present p.country = true) (1 : ℚ) (by norm_num)
  have h4 := ite_bounds (present p.website_url = true) (1 : ℚ) (by norm_num)
  have h5 := ite_bounds (present p.developer_name = true) (1/2 : ℚ) (by norm_num)
  have h6 := ite_bounds (present p.address = true) (1/2 : ℚ) (by norm_num)
  have h7 := ite_bounds (present p.description = true) (1/2 : ℚ) (by norm_num)
  have h8 := ite_bounds ((present p.contact_email || present p.inquiry_url) = true) (1/2 : ℚ) (by norm_num)
  have h9 := ite_bounds (present p.est_completion = true) (1/2 : ℚ) (by norm_num)
  have h10 := ite_bounds (present p.status = true) (1/2 : ℚ) (by norm_num)
  linarith [h1.2, h2.2, h3.2, h4.2, h5.2, h6.2, h7.2, h8.2, h9.2, h10.2]

theorem computeScore_nonneg (p : ProjectData) : 0 ≤ computeCompletenessScore p :=
  le_min (div_nonneg (scoreSum_nonneg p) (by norm_num)) (by norm_num)

theorem computeScore_le_eight_tenths (p : ProjectData) :
    computeCompletenessScore p ≤ 8 / 10 :=
  le_trans (min_le_left _ _) (by have := scoreSum_le_eight p; linarith)

theorem score_lt_of_sum_lt (p q : ProjectData) (h : scoreSum p < scoreSum q) :
    computeCompletenessScore p < computeCompletenessScore q := by
  unfold computeCompletenessScore
  have hp8 := scoreSum_le_eight p
  have hq8 := scoreSum_le_eight q
  rw [min_eq_left (by linarith : scoreSum p / 10 ≤ 1),
      min_eq_left (by linarith : scoreSum q / 10 ≤ 1)]
  linarith

/-- C7 (confirmed): the completeness score lies in [0,1], and making any
previously-absent weighted field present — all other score-relevant fields
held equal — strictly increases it. -/
theorem c7_score_bounds_and_strictly_monotone :
    (∀ p : ProjectData, 0 ≤ computeCompletenessScore p ∧ computeCompletenessScore p ≤ 1) ∧
    (∀ (p q : ProjectData) (f : WeightedField),
      (∀ g : FieldName, g ∉ wfields f → getF g p = getF g q) →
      wPresent f p = false → wPresent f q = true →
      computeCompletenessScore p < computeCompletenessScore q) := by
  constructor
  · intro p
    exact ⟨computeScore_nonneg p, min_le_right _ _⟩
  · intro p q f hg hp hq
    cases f with
    | wname =>
      have e1 : p.city = q.city := hg FieldName.city (by simp [wfields])
      have e2 : p.country = q.country := hg FieldName.country (by simp [wfields])
      have e3 : p.website_url = q.website_url := hg FieldName.website_url (by simp [wfields])
      have e4 : p.developer_name = q.developer_name := hg FieldName.developer_name (by simp [wfields])
      have e5 : p.address = q.address := hg FieldName.address (by simp [wfields])
      have e6 : p.description = q.description := hg FieldName.description (by simp [wfields])
      have e7 : p.contact_email = q.contact_email := hg FieldName.contact_email (by simp [wfields])
      have e8 : p.inquiry_url = q.inquiry_url := hg FieldName.inquiry_url (by simp [wfields])
      have e9 : p.est_completion = q.est_completion := hg FieldName.est_completion (by simp [wfields])
      have e10 : p.status = q.status := hg FieldName.status (by simp [wfields])
      simp only [wPresent, wfields, List.any_cons, List.any_nil,
        Bool.or_false, getF] at hp hq
      apply score_lt_of_sum_lt
      unfold scoreSum
      rw [e1, e2, e3, e4, e5, e6, e7, e8, e9, e10, hp, hq]
      simp
    | wcity =>
      have e1 : p.name = q.name := hg FieldName.name (by simp [wfields])
      have e2 : p.country = q.country := hg FieldName.country (by simp [wfields])
      have e3 : p.website_url = q.website_url := hg FieldName.website_url (by simp [wfields])
      have e4 : p.developer_name = q.developer_name := hg FieldName.developer_name (by simp [wfields])
      have e5 : p.address = q.address := hg FieldName.address (by simp [wfields])
      have e6 : p.description = q.description := hg FieldName.description (by simp [wfields])
      have e7 : p.contact_email = q.contact_email := hg FieldName.contact_email (by simp [wfields])
      have e8 : p.inquiry_url = q.inquiry_url := hg FieldName.inquiry_url (by simp [wfields])
      have e9 : p.est_completion = q.est_completion := hg FieldName.est_completion (by simp [wfields])
      have e10 : p.status = q.status := hg FieldName.status (by simp [wfields])
      simp only [wPresent, wfields, List.any_cons, List.any_nil,
        Bool.or_false, getF] at hp hq
      apply score_lt_of_sum_lt
      unfold scoreSum
      rw [e1, e2, e3, e4, e5, e6, e7, e8, e9, e10, hp, hq]
      simp
    | wcountry =>
      have e1 : p.name = q.name := hg FieldName.name (by simp [wfields])
      have e2 : p.city = q.city := hg FieldName.city (by simp [wfields])
      have e3 : p.website_url = q.website_url := hg FieldName.website_url (by simp [wfields])
      have e4 : p.developer_name = q.developer_name := hg FieldName.developer_name (by simp [wfields])
      have e5 : p.address = q.address := hg FieldName.address (by simp [wfields])
      have e6 : p.description = q.description := hg FieldName.description (by simp [wfields])
      have e7 : p.contact_email = q.contact_email := hg FieldName.contact_email (by simp [wfields])
      have e8 : p.inquiry_url = q.inquiry_url := hg FieldName.inquiry_url (by simp [wfields])
      have e9 : p.est_completion = q.est_completion := hg FieldName.est_completion (by simp [wfields])
      have e10 : p.status = q.status := hg FieldName.status (by simp [wfields])
      simp only [wPresent, wfields, List.any_cons, List.any_nil,
        Bool.or_false, getF] at hp hq
      apply score_lt_of_sum_lt
      unfold scoreSum
      rw [e1, e2, e3, e4, e5, e6, e7, e8, e9, e10, hp, hq]
      simp
    | wwebsite =>
      have e1 : p.name = q.name := hg FieldName.name (by simp [wfields])
      have e2 : p.city = q.city := hg FieldName.city (by simp [wfields])
      have e3 : p.country = q.country := hg FieldName.country (by simp [wfields])
      have e4 : p.developer_name = q.developer_name := hg FieldName.developer_name (by simp [wfields])
      have e5 : p.address = q.address := hg FieldName.address (by simp [wfields])
      have e6 : p.description = q.description := hg FieldName.description (by simp [wfields])
      have e7 : p.contact_email = q.contact_email := hg FieldName.contact_email (by simp [wfields])
      have e8 : p.inquiry_url = q.inquiry_url := hg FieldName.inquiry_url (by simp [wfields])
      have e9 : p.est_completion = q.est_completion := hg FieldName.est_completion (by simp [wfields])
      have e10 : p.status = q.status := hg FieldName.status (by simp [wfields])
      simp only [wPresent, wfields, List.any_cons, List.any_nil,
        Bool.or_false, getF] at hp hq
      apply score_lt_of_sum_lt
      unfold scoreSum
      rw [e1, e2, e3, e4, e5, e6, e7, e8, e9, e10, hp, hq]
      simp
    | wdeveloper =>
      have e1 : p.name = q.name := hg FieldName.name (by simp [wfields])
      have e2 : p.city = q.city := hg FieldName.city (by simp [wfields])
      have e3 : p.country = q.country := hg FieldName.country (by simp [wfields])
      have e4 : p.website_url = q.website_url := hg FieldName.website_url (by simp [wfields])
      have e5 : p.address = q.address := hg FieldName.address (by simp [wfields])
      have e6 : p.description = q.description := hg FieldName.description (by simp [wfields])
      have e7 : p.contact_email = q.contact_email := hg FieldName.contact_email (by simp [wfields])
      have e8 : p.inquiry_url = q.inquiry_url := hg FieldName.inquiry_url (by simp [wfields])
      have e9 : p.est_completion = q.est_completion := hg FieldName.est_completion (by simp [wfields])
      have e10 : p.status = q.status := hg FieldName.status (by simp [wfields])
      simp only [wPresent, wfields, List.any_cons, List.any_nil,
        Bool.or_false, getF] at hp hq
      apply score_lt_of_sum_lt
      unfold scoreSum
      rw [e1, e2, e3, e4, e5, e6, e7, e8, e9, e10, hp, hq]
      simp
    | waddress =>
      have e1 : p.name = q.name := hg FieldName.name (by simp [wfields])
      have e2 : p.city = q.city := hg FieldName.city (by simp [wfields])
      have e3 : p.country = q.country := hg FieldName.country (by simp [wfields])
      have e4 : p.website_url = q.website_url := hg FieldName.website_url (by simp [wfields])
      have e5 : p.developer_name = q.developer_name := hg FieldName.developer_name (by simp [wfields])
      have e6 : p.description = q.description := hg FieldName.description (by simp [wfields])
      have e7 : p.contact_email = q.contact_email := hg FieldName.contact_email (by simp [wfields])
      have e8 : p.inquiry_url = q.inquiry_url := hg FieldName.inquiry_url (by simp [wfields])
      have e9 : p.est_completion = q.est_completion := hg FieldName.est_completion (by simp [wfields])
      have e10 : p.status = q.status := hg FieldName.status (by simp [wfields])
      simp only [wPresent, wfields, List.any_cons, List.any_nil,
        Bool.or_false, getF] at hp hq
      apply score_lt_of_sum_lt
      unfold scoreSum
      rw [e1, e2, e3, e4, e5, e6, e7, e8, e9, e10, hp, hq]
      simp
    | wdescription =>
      have e1 : p.name = q.name := hg FieldName.name (by simp [wfields])
      have e2 : p.city = q.city := hg FieldName.city (by simp [wfields])
      have e3 : p.country = q.country := hg FieldName.country (by simp [wfields])
      have e4 : p.website_url = q.website_url := hg FieldName.website_url (by simp [wfields])
      have e5 : p.developer_name = q.developer_name := hg FieldName.developer_name (by simp [wfields])
      have e6 : p.address = q.address := hg FieldName.address (by simp [wfields])
      have e7 : p.contact_email = q.contact_email := hg FieldName.contact_email (by simp [wfields])
      have e8 : p.inquiry_url = q.inquiry_url := hg FieldName.inquiry_url (by simp [wfields])
      have e9 : p.est_completion = q.est_completion := hg FieldName.est_completion (by simp [wfields])
      have e10 : p.status = q.status := hg FieldName.status (by simp [wfields])
      simp only [wPresent, wfields, List.any_cons, List.any_nil,
        Bool.or_false, getF] at hp hq
      apply score_lt_of_sum_lt
      unfold scoreSum
      rw [e1, e2, e3, e4, e5, e6, e7, e8, e9, e10, hp, hq]
      simp
    | wcontact =>
      have e1 : p.name = q.name := hg FieldName.name (by simp [wfields])
      have e2 : p.city = q.city := hg FieldName.city (by simp [wfields])
      have e3 : p.country = q.country := hg FieldName.country (by simp [wfields])
      have e4 : p.website_url = q.website_url := hg FieldName.website_url (by simp [wfields])
      have e5 : p.developer_name = q.developer_name := hg FieldName.developer_name (by simp [wfields])
      have e6 : p.address = q.address := hg FieldName.address (by simp [wfields])
      have e7 : p.description = q.description := hg FieldName.description (by simp [wfields])
      have e8 : p.est_completion = q.est_completion := hg FieldName.est_completion (by simp [wfields])
      have e9 : p.status = q.status := hg FieldName.status (by simp [wfields])
      simp only [wPresent, wfields, List.any_cons, List.any_nil,
        Bool.or_false, getF] at hp hq
      apply score_lt_of_sum_lt
      unfold scoreSum
      rw [e1, e2, e3, e4, e5, e6, e7, e8, e9, hp, hq]
      simp
    | wcompletion =>
      have e1 : p.name = q.name := hg FieldName.name (by simp [wfields])
      have e2 : p.city = q.city := hg FieldName.city (by simp [wfields])
      have e3 : p.country = q.country := hg FieldName.country (by simp [wfields])
      have e4 : p.website_url = q.website_url := hg FieldName.website_url (by simp [wfields])
      have e5 : p.developer_name = q.developer_name := hg FieldName.developer_name (by simp [wfields])
      have e6 : p.address = q.address := hg FieldName.address (by simp [wfields])
      have e7 : p.description = q.description := hg FieldName.description (by simp [wfields])
      have e8 : p.contact_email = q.contact_email := hg FieldName.contact_email (by simp [wfields])
      have e9 : p.inquiry_url = q.inquiry_url := hg FieldName.inquiry_url (by simp [wfields])
      have e10 : p.status = q.status := hg FieldName.status (by simp [wfields])
      simp only [wPresent, wfields, List.any_cons, List.any_nil,
        Bool.or_false, getF] at hp hq
      apply score_lt_of_sum_lt
      unfold scoreSum
      rw [e1, e2, e3, e4, e5, e6, e7, e8, e9, e10, hp, hq]
      simp
    | wstatus =>
      have e1 : p.name = q.name := hg FieldName.name (by simp [wfields])
      have e2 : p.city = q.city := hg FieldName.city (by simp [wfields])
      have e3 : p.country = q.country := hg FieldName.country (by simp [wfields])
      have e4 : p.website_url = q.website_url := hg FieldName.website_url (by simp [wfields])
      have e5 : p.developer_name = q.developer_name := hg FieldName.developer_name (by simp [wfields])
      have e6 : p.address = q.address := hg FieldName.address (by simp [wfields])
      have e7 : p.description = q.description := hg FieldName.description (by simp [wfields])
      have e8 : p.contact_email = q.contact_email := hg FieldName.contact_email (by simp [wfields])
      have e9 : p.inquiry_url = q.inquiry_url := hg FieldName.inquiry_url (by simp [wfields])
      have e10 : p.est_completion = q.est_completion := hg FieldName.est_completion (by simp [wfields])
      simp only [wPresent, wfields, List.any_cons, List.any_nil,
        Bool.or_false, getF] at hp hq
      apply score_lt_of_sum_lt
      unfold scoreSum
      rw [e1, e2, e3, e4, e5, e6, e7, e8, e9, e10, hp, hq]
      simp

theorem c7_strict_mono_witness :
    computeCompletenessScore nameOnlyProject <
      computeCompletenessScore { nameOnlyProject with city := some "Miami" } := by
  refine (c7_score_bounds_and_strictly_monotone).2 nameOnlyProject _
    WeightedField.wcity ?_ (by decide) (by decide)
  intro g hgmem
  cases g <;> first | rfl | exact (hgmem (by simp [wfields])).elim

/-- C10 (confirmed): the ten weights sum to 8 over a divisor of 10, so the
score never exceeds 0.8 (hence never reaches 1.0), and a fully populated
project scores exactly 0.8. -/
theorem c10_score_capped_at_point_eight :
    (∀ p : ProjectData, computeCompletenessScore p ≤ 8 / 10 ∧ computeCompletenessScore p < 1) ∧
    computeCompletenessScore fullProject = 8 / 10 := by
  constructor
  · intro p
    have h := computeScore_le_eight_tenths p
    exact ⟨h, lt_of_le_of_lt h (by norm_num)⟩
  · have hx : present (some "x") = true := by decide
    have hsum : scoreSum fullProject = 8 := by
      unfold scoreSum fullProject
      simp [hx]
      norm_num
    unfold computeCompletenessScore
    rw [hsum, min_eq_left (by norm_num : (8 : ℚ) / 10 ≤ 1)]


theorem lowerL_joinSpace (ls : List (List Char)) :
    lowerL (joinSpace ls) = joinSpace (ls.map lowerL) := by
  induction ls with
  | nil => rfl
  | cons x xs ih =>
    cases xs with
    | nil => rfl
    | cons y ys =>
      show lowerL (x ++ ' ' :: joinSpace (y :: ys)) = _
      simp only [List.map_cons]
      show _ = lowerL x ++ ' ' :: joinSpace (lowerL y :: List.map lowerL ys)
      rw [show (joinSpace (lowerL y :: List.map lowerL ys)) =
          joinSpace ((y :: ys).map lowerL) by simp]
      rw [← ih]
      simp [lowerL, show Char.toLower ' ' = ' ' from rfl]

theorem filter_map_lower (ls : List (List Char)) :
    (ls.filter (fun c => !c.isEmpty)).map lowerL =
    (ls.map lowerL).filter (fun c => !c.isEmpty) := by
  induction ls with
  | nil => rfl
  | cons x xs ih =>
    cases x with
    | nil => simpa [lowerL] using ih
    | cons a as => simpa [lowerL] using ih

theorem slugify_congr (a b : List Char) (h : lowerL a = lowerL b) :
    slugifyL a = slugifyL b := by
  unfold slugifyL
  rw [h]

/-- C8 (confirmed): the canonical key is determined by the four key fields
alone, and records agreeing on them up to letter case and surrounding
whitespace get equal keys. -/
theorem c8_key_deterministic_case_ws_insensitive :
    (∀ A B : ProjectData,
      lowerL (strippedField A.name) = lowerL (strippedField B.name) →
      lowerL (strippedField A.developer_name) = lowerL (strippedField B.developer_name) →
      lowerL (strippedField A.city) = lowerL (strippedField B.city) →
      lowerL (strippedField A.country) = lowerL (strippedField B.country) →
      generateProjectKey A = generateProjectKey B) ∧
    (∀ A B : ProjectData, A.name = B.name → A.developer_name = B.developer_name →
      A.city = B.city → A.country = B.country →
      generateProjectKey A = generateProjectKey B) := by
  constructor
  · intro A B h1 h2 h3 h4
    unfold generateProjectKey
    dsimp only
    congr 1
    apply slugify_congr
    rw [lowerL_joinSpace, lowerL_joinSpace, filter_map_lower, filter_map_lower]
    simp only [List.map_cons, List.map_nil]
    rw [h1, h2, h3, h4]
  · intro A B h1 h2 h3 h4
    unfold generateProjectKey
    dsimp only
    rw [h1, h2, h3, h4]

theorem c8_key_witness :
    generateProjectKey { name := some "  Tower A", city := some "miami " } =
      generateProjectKey { name := some "tower a", city := some "MIAMI" } :=
  c8_key_deterministic_case_ws_insensitive.1
    { name := some "  Tower A", city := some "miami " }
    { name := some "tower a", city := some "MIAMI" }
    (by decide) (by decide) (by decide) (by decide)

theorem decimalVal_nonneg (a b : List Char) : 0 ≤ decimalVal a b := by
  unfold decimalVal
  split
  · exact Nat.cast_nonneg _
  · positivity

theorem findNumber_nonneg (l : List Char) (q : ℚ) (h : findNumber l = some q) :
    0 ≤ q := by
  induction l with
  | nil => simp [findNumber] at h
  | cons c rest ih =>
    by_cases hc : isDigit c
    · simp only [findNumber, hc, if_true] at h
      obtain rfl : _ = q := Option.some.inj h
      exact decimalVal_nonneg _ _
    · simp only [findNumber, hc, Bool.false_eq_true, if_false] at h
      exact ih h

theorem findPriceNumber_nonneg (l : List Char) (q : ℚ)
    (h : findPriceNumber l = some q) : 0 ≤ q := by
  induction l with
  | nil => simp [findPriceNumber] at h
  | cons c rest ih =>
    by_cases hc : isDigit c
    · simp only [findPriceNumber, hc, if_true] at h
      obtain rfl : _ = q := Option.some.inj h
      exact decimalVal_nonneg _ _
    · simp only [findPriceNumber, hc, Bool.false_eq_true, if_false] at h
      exact ih h

theorem noteSelect_value (low : List Char) (v0 : Option ℚ) :
    (noteSelect low v0).1 = v0 ∨ (noteSelect low v0).1 = none := by
  unfold noteSelect
  split
  · exact Or.inl rfl
  · split
    · exact Or.inr rfl
    · exact Or.inl rfl

theorem parsePrice_value_nonneg (tbl : List (String × String)) (s : String)
    (tr : PriceTriple) (h : parsePrice tbl (NumOrText.txt s) = some tr)
    (v : ℚ) (hv : tr.value = some v) : 0 ≤ v := by
  simp only [parsePrice] at h
  by_cases h0 : s.data = []
  · simp [h0] at h
  · rw [if_neg h0] at h
    split at h
    · cases h
    · obtain rfl := Option.some.inj h
      dsimp only at hv
      rcases noteSelect_value (lowerL (stripSymbol tbl (stripL s.data)).2)
          (findPriceNumber (stripSymbol tbl (stripL s.data)).2) with he | he
      · rw [he] at hv
        exact findPriceNumber_nonneg _ v hv
      · rw [he] at hv
        cases hv

/-- C9 (amended): every numeric value extracted from *text* by the size,
bedroom, bathroom and price parsers is non-negative (the digit patterns
cannot match a sign), and the schema validator turns a negative numeric
field into `None`; but an already-numeric input is passed through
unchanged, so the parsers themselves can return negative values. -/
theorem c9_text_parsers_nonneg :
    ∀ (s : String) (v : ℚ),
      (parseSize (NumOrText.txt s) = some v → 0 ≤ v) ∧
      (parseBedrooms (NumOrText.txt s) = some v → 0 ≤ v) ∧
      (parseBathrooms (NumOrText.txt s) = some v → 0 ≤ v) ∧
      (∀ tbl tr, parsePrice tbl (NumOrText.txt s) = some tr →
        tr.value = some v → 0 ≤ v) ∧
      (v < 0 → validateNumericField (some v) = none) ∧
      (0 ≤ v → validateNumericField (some v) = some v) := by
  intro s v
  refine ⟨?_, ?_, ?_, ?_, ?_, ?_⟩
  · intro h
    by_cases h0 : s.data = []
    · simp [parseSize, h0] at h
    · simp only [parseSize, h0, if_false] at h
      exact findNumber_nonneg _ v h
  · intro h
    by_cases h0 : s.data = []
    · simp [parseBedrooms, h0] at h
    · simp only [parseBedrooms, h0, if_false] at h
      split at h
      · obtain rfl := Option.some.inj h
        norm_num
      · exact findNumber_nonneg _ v h
  · intro h
    by_cases h0 : s.data = []
    · simp [parseBathrooms, h0] at h
    · simp only [parseBathrooms, h0, if_false] at h
      exact findNumber_nonneg _ v h
  · intro tbl tr h hv
    exact parsePrice_value_nonneg tbl s tr h v hv
  · intro h
    simp [validateNumericField, h]
  · intro h
    simp [validateNumericField, not_lt.mpr h]

theorem c9_text_parsers_nonneg_witness :
    parseBedrooms (NumOrText.txt "studio") = some 0 ∧ (0 : ℚ) ≤ 0 :=
  ⟨rfl, (c9_text_parsers_nonneg "studio" 0).2.1 rfl⟩

/-- C9 (counterexample): the parsers pass an already-numeric input through
unchanged, so a negative numeric input yields a negative parsed value
rather than "unset". -/
theorem c9_negative_numeric_passthrough :
    parseSize (NumOrText.num (-1)) = some (-1) ∧
    parseBedrooms (NumOrText.num (-2)) = some (-2) ∧
    parseBathrooms (NumOrText.num (-1)) = some (-1) ∧
    parsePrice specCurrencyTable (NumOrText.num (-5)) =
      some { value := some (-5), currency := "USD", note := none } ∧
    ((-1 : ℚ) < 0) :=
  ⟨rfl, rfl, rfl, rfl, by norm_num⟩
